import Mathlib

/-!
KataFish core types: a shallow embedding of `src/core/types.h`.

The header defines the board-representation layer of the engine: the
enumerations (as their underlying integer values), the packing of a piece
from its type and colour, the FEN letter table, the square geometry and the
file/rank bitboard masks.

Conventions of the embedding.

* A C++ enumeration is its underlying integer: an enumerator is a named
  natural number, and a conversion `E(n)` keeps the value `n`.  `Square` has
  the fixed underlying type `uint8_t`, so `Square(n)` reduces `n` modulo `2^8`.
* `int` parameters are integers (`Int`); `Bitboard` is `uint64_t`, a natural
  number below `2^64`, with `~` taken inside 64 bits.
* `assert(e)` is the `<cassert>` macro with `NDEBUG` not defined: a function
  whose assertion fails returns `none`, otherwise `some` of its result.
-/

namespace KataFish

/-- Source: `using Eval = int;` -/
abbrev Eval := Int

/-- Source: `using Bitboard = uint64_t;` : bit `i` stands for square `i`. -/
abbrev Bitboard := Nat

/-- Underlying values of `enum GameStatus`. -/
abbrev GameStatus := Nat
def IN_PROGRESS : GameStatus := 0
def CHECKMATE : GameStatus := 1
def DRAW_BY_REPETITION : GameStatus := 2
def DRAW_BY_STALEMATE : GameStatus := 3
def DRAW_BY_INSUFFICIENT_MATERIAL : GameStatus := 4
def DRAW_BY_50_MOVE_RULE : GameStatus := 5

/-- Underlying values of `enum PieceType`. -/
abbrev PieceType := Nat
def PAWN : PieceType := 0
def KNIGHT : PieceType := 1
def BISHOP : PieceType := 2
def ROOK : PieceType := 3
def QUEEN : PieceType := 4
def KING : PieceType := 5
def NO_PT : PieceType := 6

/-- Underlying values of `enum Color`. -/
abbrev Color := Nat
def WHITE : Color := 0
def BLACK : Color := 1

/-- Underlying values of `enum Piece`. -/
abbrev Piece := Nat
def WP : Piece := 0
def WN : Piece := 1
def WB : Piece := 2
def WR : Piece := 3
def WQ : Piece := 4
def WK : Piece := 5
def BP : Piece := 6
def BN : Piece := 7
def BB : Piece := 8
def BR : Piece := 9
def BQ : Piece := 10
def BK : Piece := 11
def NO_PIECE : Piece := 12

/-- Underlying values of `enum File : int`. -/
abbrev File := Nat
def FILE_A : File := 0
def FILE_B : File := 1
def FILE_C : File := 2
def FILE_D : File := 3
def FILE_E : File := 4
def FILE_F : File := 5
def FILE_G : File := 6
def FILE_H : File := 7

/-- Underlying values of `enum Rank : int`; `RANK_8` is the first enumerator. -/
abbrev Rank := Nat
def RANK_8 : Rank := 0
def RANK_7 : Rank := 1
def RANK_6 : Rank := 2
def RANK_5 : Rank := 3
def RANK_4 : Rank := 4
def RANK_3 : Rank := 5
def RANK_2 : Rank := 6
def RANK_1 : Rank := 7

def COLORS : List Color := [WHITE, BLACK]

def PIECE_TYPES : List PieceType := [PAWN, KNIGHT, BISHOP, ROOK, QUEEN, KING]

def PROMOTION_PIECE_TYPES : List PieceType := [KNIGHT, BISHOP, ROOK, QUEEN]

def SAN_PTS : List String := ["P", "N", "B", "R", "Q", "K"]

/-- Source: `return Piece(pt + 6 * side);` -/
def ptToPiece (pt : PieceType) (side : Color) : Piece :=
  pt + 6 * side

/-- Source: `assert(p != NO_PIECE); return PieceType(p % 6);` -/
def pieceToPT (p : Piece) : Option PieceType :=
  if p ≠ NO_PIECE then some (p % 6) else none

/-- Source: `assert(p != NO_PIECE); return Color(p >= 6);` : the comparison is a
`bool`, converted to `1` when it holds and to `0` when it does not. -/
def pieceColor (p : Piece) : Option Color :=
  if p ≠ NO_PIECE then some (if p ≥ 6 then 1 else 0) else none

def WHITE_PIECES : List Piece := [WP, WN, WB, WR, WQ, WK]

def BLACK_PIECES : List Piece := [BP, BN, BB, BR, BQ, BK]

def ALL_PIECES : List Piece := [WP, WN, WB, WR, WQ, WK, BP, BN, BB, BR, BQ, BK]

def COLOR_TO_PIECES : List (List Piece) := [WHITE_PIECES, BLACK_PIECES]

def PIECE_FILENAMES : List String :=
  ["wP", "wN", "wB", "wR", "wQ", "wK", "bP", "bN", "bB", "bR", "bQ", "bK"]

/-- The `switch` of `fenCharToPiece`: twelve `case` labels and a `default`. -/
def fenCharToPiece (c : Char) : Piece :=
  if c = 'P' then WP
  else if c = 'N' then WN
  else if c = 'B' then WB
  else if c = 'R' then WR
  else if c = 'Q' then WQ
  else if c = 'K' then WK
  else if c = 'p' then BP
  else if c = 'n' then BN
  else if c = 'b' then BB
  else if c = 'r' then BR
  else if c = 'q' then BQ
  else if c = 'k' then BK
  else NO_PIECE

def infinity : Eval := 99999
def MATE_SCORE : Eval := 99999
def MATE_BOUND : Eval := 99998

def MAX_PLY : Int := 128

def pieceTypeValues : List Eval := [100, 300, 320, 500, 900, infinity, 0]

/-- Underlying values of `enum Square : uint8_t`, `a8 = 0` to `h1 = 63`, then
the sentinel `NO_SQ = 64`. -/
abbrev Square := Nat
def a8 : Square := 0
def b8 : Square := 1
def c8 : Square := 2
def d8 : Square := 3
def e8 : Square := 4
def f8 : Square := 5
def g8 : Square := 6
def h8 : Square := 7
def a7 : Square := 8
def b7 : Square := 9
def c7 : Square := 10
def d7 : Square := 11
def e7 : Square := 12
def f7 : Square := 13
def g7 : Square := 14
def h7 : Square := 15
def a6 : Square := 16
def b6 : Square := 17
def c6 : Square := 18
def d6 : Square := 19
def e6 : Square := 20
def f6 : Square := 21
def g6 : Square := 22
def h6 : Square := 23
def a5 : Square := 24
def b5 : Square := 25
def c5 : Square := 26
def d5 : Square := 27
def e5 : Square := 28
def f5 : Square := 29
def g5 : Square := 30
def h5 : Square := 31
def a4 : Square := 32
def b4 : Square := 33
def c4 : Square := 34
def d4 : Square := 35
def e4 : Square := 36
def f4 : Square := 37
def g4 : Square := 38
def h4 : Square := 39
def a3 : Square := 40
def b3 : Square := 41
def c3 : Square := 42
def d3 : Square := 43
def e3 : Square := 44
def f3 : Square := 45
def g3 : Square := 46
def h3 : Square := 47
def a2 : Square := 48
def b2 : Square := 49
def c2 : Square := 50
def d2 : Square := 51
def e2 : Square := 52
def f2 : Square := 53
def g2 : Square := 54
def h2 : Square := 55
def a1 : Square := 56
def b1 : Square := 57
def c1 : Square := 58
def d1 : Square := 59
def e1 : Square := 60
def f1 : Square := 61
def g1 : Square := 62
def h1 : Square := 63
def NO_SQ : Square := 64

def ALL_SQUARES : List Square :=
  [a8, b8, c8, d8, e8, f8, g8, h8,
   a7, b7, c7, d7, e7, f7, g7, h7,
   a6, b6, c6, d6, e6, f6, g6, h6,
   a5, b5, c5, d5, e5, f5, g5, h5,
   a4, b4, c4, d4, e4, f4, g4, h4,
   a3, b3, c3, d3, e3, f3, g3, h3,
   a2, b2, c2, d2, e2, f2, g2, h2,
   a1, b1, c1, d1, e1, f1, g1, h1]

def ALL_SQUARES_BB : Bitboard := 0xFFFFFFFFFFFFFFFF

/-- Source: `return Square((y << 3) + x);` : `y << 3` is `y * 2^3`, and the conversion
to `Square` keeps the low eight bits. -/
def xyToSquare (x y : Int) : Square :=
  ((y * 2 ^ 3 + x) % 256).toNat

/-- Source: `return Square(s ^ a1);` -/
def flipRank (s : Square) : Square :=
  (s ^^^ a1) % 256

/-- Source: `return Square(s ^ h8);` -/
def flipFile (s : Square) : Square :=
  (s ^^^ h8) % 256

def FILE_MASKS : List Bitboard :=
  [72340172838076673,
   144680345676153346,
   289360691352306692,
   578721382704613384,
   1157442765409226768,
   2314885530818453536,
   4629771061636907072,
   9259542123273814144]

/-- The operator `~` on a `uint64_t`: every one of the 64 bits is inverted. -/
def bbNot (b : Bitboard) : Bitboard :=
  b ^^^ 0xFFFFFFFFFFFFFFFF

/-- Subscript `t[i]` of a table of bitboards. -/
def at64 (t : List Bitboard) (i : Nat) : Bitboard :=
  t.getD i 0

def notA : Bitboard := bbNot (at64 FILE_MASKS FILE_A)
def notAB : Bitboard := bbNot (at64 FILE_MASKS FILE_A ||| at64 FILE_MASKS FILE_B)
def notH : Bitboard := bbNot (at64 FILE_MASKS FILE_H)
def notGH : Bitboard := bbNot (at64 FILE_MASKS FILE_G ||| at64 FILE_MASKS FILE_H)

def RANK_MASKS : List Bitboard :=
  [255,
   65280,
   16711680,
   4278190080,
   1095216660480,
   280375465082880,
   71776119061217280,
   18374686479671623680]

def not1 : Bitboard := bbNot (at64 RANK_MASKS RANK_1)
def not12 : Bitboard := bbNot (at64 RANK_MASKS RANK_1 ||| at64 RANK_MASKS RANK_2)
def not8 : Bitboard := bbNot (at64 RANK_MASKS RANK_8)
def not78 : Bitboard := bbNot (at64 RANK_MASKS RANK_7 ||| at64 RANK_MASKS RANK_8)

/-- Source: `return File(sq & 7);` -/
def fileOf (sq : Square) : File :=
  sq &&& 7

/-- Source: `return Rank(sq >> 3);` -/
def rankOf (sq : Square) : Rank :=
  sq >>> 3

/-- The squares of a bitboard: the indices in `0..63` whose bit is set, in
increasing order. -/
def squaresOf (b : Bitboard) : List Square :=
  (List.range 64).filter fun i => b.testBit i

/-- Number of bits set among the 64 bits of a bitboard. -/
def popCount (b : Bitboard) : Nat :=
  (squaresOf b).length

/-- The letter of each piece type, in `PieceType` order: the first character
of each entry of `SAN_PTS`. -/
def sanLetters : List Char :=
  SAN_PTS.map fun l => l.front

/-- Reference FEN table, written from the specification and not from the
`switch`: for the piece type `pt` with letter `L`, the uppercase letter `L`
stands for `ptToPiece pt WHITE` and its lowercase form for
`ptToPiece pt BLACK`. -/
def fenReferenceTable : List (Char × Piece) :=
  (sanLetters.zip PIECE_TYPES).map (fun e => (e.1, ptToPiece e.2 WHITE)) ++
  (sanLetters.zip PIECE_TYPES).map (fun e => (e.1.toLower, ptToPiece e.2 BLACK))

/-- The twelve recognised letters. -/
def fenLetters : List Char :=
  fenReferenceTable.map Prod.fst

/-- Reference FEN mapping of the specification: a letter of the table maps
to its piece, every other character to `NO_PIECE`. -/
def fenReference (c : Char) : Piece :=
  (fenReferenceTable.lookup c).getD NO_PIECE

/-- The operator `<<` on a `uint64_t`: the bits shifted past bit 63 are
dropped. -/
def shl64 (b : Bitboard) (n : Nat) : Bitboard :=
  (b <<< n) % 2 ^ 64

/-- The operator `>>` on a `uint64_t`: the bits shifted below bit 0 are
dropped. -/
def shr64 (b : Bitboard) (n : Nat) : Bitboard :=
  b >>> n

/-- Subscript `pieceTypeValues[pt]`. -/
def pieceValue (pt : PieceType) : Eval :=
  pieceTypeValues.getD pt 0

/-! ## Square geometry -/

/-- The file is the remainder of the index by eight. -/
theorem fileOf_eq_mod (sq : Square) : fileOf sq = sq % 8 := by
  unfold fileOf
  exact Nat.and_pow_two_sub_one_eq_mod sq 3

/-- The rank index is the quotient of the index by eight. -/
theorem rankOf_eq_div (sq : Square) : rankOf sq = sq / 8 := by
  unfold rankOf
  exact Nat.shiftRight_eq_div_pow sq 3

/-- Inside the board, `xyToSquare` is `y * 8 + x`. -/
theorem xyToSquare_val (x y : Int) (hx0 : 0 ≤ x) (hx7 : x ≤ 7) (hy0 : 0 ≤ y) (hy7 : y ≤ 7) :
    (xyToSquare x y : Int) = y * 8 + x := by
  unfold xyToSquare
  have h : (y * 2 ^ 3 + x) % 256 = y * 8 + x := by omega
  rw [h]
  omega

/-- On a valid square the rank mirror exchanges rank index `r` with `7 - r`
and leaves the file alone. -/
theorem flipRank_val (s : Square) (h : s ≤ 63) : flipRank s = (7 - s / 8) * 8 + s % 8 := by
  interval_cases s <;> rfl

/-- On a valid square the file mirror exchanges file `f` with `7 - f` and
leaves the rank alone. -/
theorem flipFile_val (s : Square) (h : s ≤ 63) : flipFile s = s / 8 * 8 + (7 - s % 8) := by
  interval_cases s <;> rfl

/-- C1: for every square index `sq` in `0..63`, recomposing the file and the
rank of `sq` with `xyToSquare` gives `sq` back. -/
theorem xyToSquare_fileOf_rankOf (sq : Square) (h : sq ≤ 63) :
    xyToSquare (fileOf sq) (rankOf sq) = sq := by
  interval_cases sq <;> rfl

theorem xyToSquare_fileOf_rankOf_witness :
    e4 ≤ 63 ∧ xyToSquare (fileOf e4) (rankOf e4) = e4 :=
  ⟨by decide, xyToSquare_fileOf_rankOf e4 (by decide)⟩

/-- C2: for every file `x` and rank index `y` in `0..7`, `xyToSquare x y` is
the valid square `y * 8 + x` (at most 63, never `NO_SQ`) whose file is `x` and
whose rank is `y`; so `xyToSquare` is one-to-one on `[0,7] x [0,7]`, reaches
every one of the 64 valid squares, and `(fileOf, rankOf)` is its inverse. -/
theorem xyToSquare_bijection :
    (∀ x y : Int, 0 ≤ x → x ≤ 7 → 0 ≤ y → y ≤ 7 →
      (xyToSquare x y : Int) = y * 8 + x ∧ xyToSquare x y ≤ 63 ∧ xyToSquare x y ≠ NO_SQ ∧
      (fileOf (xyToSquare x y) : Int) = x ∧ (rankOf (xyToSquare x y) : Int) = y) ∧
    (∀ x y x' y' : Int, 0 ≤ x → x ≤ 7 → 0 ≤ y → y ≤ 7 → 0 ≤ x' → x' ≤ 7 → 0 ≤ y' → y' ≤ 7 →
      xyToSquare x y = xyToSquare x' y' → x = x' ∧ y = y') ∧
    (∀ s : Square, s ≤ 63 →
      fileOf s ≤ 7 ∧ rankOf s ≤ 7 ∧ xyToSquare (fileOf s) (rankOf s) = s) := by
  refine ⟨?_, ?_, ?_⟩
  · intro x y hx0 hx7 hy0 hy7
    have hv := xyToSquare_val x y hx0 hx7 hy0 hy7
    rw [fileOf_eq_mod, rankOf_eq_div]
    simp only [NO_SQ, Square] at *
    omega
  · intro x y x' y' hx0 hx7 hy0 hy7 hx0' hx7' hy0' hy7' he
    have hv := xyToSquare_val x y hx0 hx7 hy0 hy7
    have hv' := xyToSquare_val x' y' hx0' hx7' hy0' hy7'
    rw [he] at hv
    simp only [Square] at *
    omega
  · intro s hs
    have hf := fileOf_eq_mod s
    have hr := rankOf_eq_div s
    have hv := xyToSquare_val (fileOf s) (rankOf s) (Int.ofNat_nonneg _)
      (by simp only [Square, File] at *; omega) (Int.ofNat_nonneg _)
      (by simp only [Square, Rank] at *; omega)
    simp only [Square, File, Rank] at *
    omega

theorem xyToSquare_bijection_witness :
    (xyToSquare 4 4 : Int) = 4 * 8 + 4 ∧ xyToSquare 4 4 ≤ 63 ∧ xyToSquare 4 4 ≠ NO_SQ ∧
      (fileOf (xyToSquare 4 4) : Int) = 4 ∧ (rankOf (xyToSquare 4 4) : Int) = 4 :=
  xyToSquare_bijection.1 4 4 (by decide) (by decide) (by decide) (by decide)

/-- C3: for every valid square `s` in `0..63`, mirroring the rank twice, or
the file twice, gives `s` back. -/
theorem flip_involutive (s : Square) (h : s ≤ 63) :
    flipRank (flipRank s) = s ∧ flipFile (flipFile s) = s := by
  have hr := flipRank_val s h
  have hf := flipFile_val s h
  have hr2 := flipRank_val (flipRank s) (by simp only [Square] at *; omega)
  have hf2 := flipFile_val (flipFile s) (by simp only [Square] at *; omega)
  simp only [Square] at *
  omega

theorem flip_involutive_witness :
    b7 ≤ 63 ∧ flipRank (flipRank b7) = b7 ∧ flipFile (flipFile b7) = b7 :=
  ⟨by decide, flip_involutive b7 (by decide)⟩

/-- C4: for every valid square `s` in `0..63`, `flipRank s` is a valid square
with the file of `s` and rank index `7 - rankOf s`; the corner `a8` goes to
`a1` and the corner `h8` to `h1`. -/
theorem flipRank_reflects :
    (∀ s : Square, s ≤ 63 →
      flipRank s ≤ 63 ∧ fileOf (flipRank s) = fileOf s ∧ rankOf s ≤ 7 ∧
      rankOf (flipRank s) = 7 - rankOf s) ∧
    flipRank a8 = a1 ∧ flipRank h8 = h1 := by
  refine ⟨?_, by decide, by decide⟩
  intro s hs
  have hr := flipRank_val s hs
  simp only [fileOf_eq_mod, rankOf_eq_div, Square, File, Rank] at *
  omega

theorem flipRank_reflects_witness :
    flipRank c6 ≤ 63 ∧ fileOf (flipRank c6) = fileOf c6 ∧ rankOf c6 ≤ 7 ∧
      rankOf (flipRank c6) = 7 - rankOf c6 :=
  flipRank_reflects.1 c6 (by decide)

/-- C5: for every valid square `s` in `0..63`, `flipFile s` is a valid square
with the rank of `s` and file `7 - fileOf s`; the corner `a8` goes to `h8` and
the corner `a1` to `h1`. -/
theorem flipFile_reflects :
    (∀ s : Square, s ≤ 63 →
      flipFile s ≤ 63 ∧ rankOf (flipFile s) = rankOf s ∧ fileOf s ≤ 7 ∧
      fileOf (flipFile s) = 7 - fileOf s) ∧
    flipFile a8 = h8 ∧ flipFile a1 = h1 := by
  refine ⟨?_, by decide, by decide⟩
  intro s hs
  have hf := flipFile_val s hs
  simp only [fileOf_eq_mod, rankOf_eq_div, Square, File, Rank] at *
  omega

theorem flipFile_reflects_witness :
    flipFile c6 ≤ 63 ∧ rankOf (flipFile c6) = rankOf c6 ∧ fileOf c6 ≤ 7 ∧
      fileOf (flipFile c6) = 7 - fileOf c6 :=
  flipFile_reflects.1 c6 (by decide)

/-! ## Piece and colour encoding -/

/-- The six real piece types are the values `0..5`. -/
theorem mem_PIECE_TYPES (pt : PieceType) : pt ∈ PIECE_TYPES ↔ pt ≤ 5 := by
  constructor
  · intro h
    simp only [PIECE_TYPES, PAWN, KNIGHT, BISHOP, ROOK, QUEEN, KING, List.mem_cons,
      List.mem_singleton, List.not_mem_nil, or_false, PieceType] at *
    omega
  · intro h
    interval_cases pt <;> decide

/-- The two colours are the values `0` and `1`. -/
theorem mem_COLORS (c : Color) : c ∈ COLORS ↔ c ≤ 1 := by
  constructor
  · intro h
    simp only [COLORS, WHITE, BLACK, List.mem_cons, List.mem_singleton, List.not_mem_nil,
      or_false, Color] at *
    omega
  · intro h
    interval_cases c <;> decide

/-- The twelve valid pieces are the values `0..11`. -/
theorem mem_ALL_PIECES (p : Piece) : p ∈ ALL_PIECES ↔ p ≤ 11 := by
  constructor
  · intro h
    simp only [ALL_PIECES, WP, WN, WB, WR, WQ, WK, BP, BN, BB, BR, BQ, BK, List.mem_cons,
      List.mem_singleton, List.not_mem_nil, or_false, Piece] at *
    omega
  · intro h
    interval_cases p <;> decide

/-- C6: for every one of the twelve valid pieces `p` (the entries of
`ALL_PIECES`, the values `0..11`), both decoders succeed and packing the
decoded type and colour with `ptToPiece` gives `p` back. -/
theorem ptToPiece_pieceToPT_pieceColor (p : Piece) (h : p ∈ ALL_PIECES) :
    p ≤ 11 ∧
    ∃ pt c, pieceToPT p = some pt ∧ pieceColor p = some c ∧ ptToPiece pt c = p := by
  have h11 := (mem_ALL_PIECES p).1 h
  refine ⟨h11, ?_⟩
  interval_cases p <;> exact ⟨_, _, rfl, rfl, rfl⟩

theorem ptToPiece_pieceToPT_pieceColor_witness :
    BQ ∈ ALL_PIECES ∧ BQ ≤ 11 ∧
    ∃ pt c, pieceToPT BQ = some pt ∧ pieceColor BQ = some c ∧ ptToPiece pt c = BQ :=
  ⟨by decide, ptToPiece_pieceToPT_pieceColor BQ (by decide)⟩

/-- C7: for every piece type `pt` in `PAWN..KING` and every colour `c`,
`ptToPiece pt c` is `pt + 6 * c`, a valid piece in `0..11` and never
`NO_PIECE`, and the decoders return `pt` and `c` on it; so `ptToPiece` is
one-to-one on the twelve (type, colour) pairs and reaches every valid piece. -/
theorem ptToPiece_bijection :
    (∀ (pt : PieceType) (c : Color), pt ∈ PIECE_TYPES → c ∈ COLORS →
      ptToPiece pt c = pt + 6 * c ∧ ptToPiece pt c ≤ 11 ∧ ptToPiece pt c ≠ NO_PIECE ∧
      ptToPiece pt c ∈ ALL_PIECES ∧
      pieceToPT (ptToPiece pt c) = some pt ∧ pieceColor (ptToPiece pt c) = some c) ∧
    (∀ (pt pt' : PieceType) (c c' : Color), pt ∈ PIECE_TYPES → c ∈ COLORS →
      pt' ∈ PIECE_TYPES → c' ∈ COLORS →
      ptToPiece pt c = ptToPiece pt' c' → pt = pt' ∧ c = c') ∧
    (∀ p : Piece, p ∈ ALL_PIECES →
      ∃ pt c, pt ∈ PIECE_TYPES ∧ c ∈ COLORS ∧ ptToPiece pt c = p) := by
  refine ⟨?_, ?_, ?_⟩
  · intro pt c hpt hc
    have hpt5 := (mem_PIECE_TYPES pt).1 hpt
    have hc1 := (mem_COLORS c).1 hc
    interval_cases pt <;> interval_cases c <;> decide
  · intro pt pt' c c' hpt hc hpt' hc' he
    have hpt5 := (mem_PIECE_TYPES pt).1 hpt
    have hc1 := (mem_COLORS c).1 hc
    have hpt5' := (mem_PIECE_TYPES pt').1 hpt'
    have hc1' := (mem_COLORS c').1 hc'
    simp only [ptToPiece, PieceType, Color, Piece] at *
    omega
  · intro p hp
    have h11 := (mem_ALL_PIECES p).1 hp
    refine ⟨p % 6, p / 6, (mem_PIECE_TYPES _).2 ?_, (mem_COLORS _).2 ?_, ?_⟩
    · simp only [PieceType, Piece] at *; omega
    · simp only [Color, Piece] at *; omega
    · simp only [ptToPiece, Piece] at *; omega

theorem ptToPiece_bijection_witness :
    ptToPiece ROOK BLACK = ROOK + 6 * BLACK ∧ ptToPiece ROOK BLACK ≤ 11 ∧
      ptToPiece ROOK BLACK ≠ NO_PIECE ∧ ptToPiece ROOK BLACK ∈ ALL_PIECES ∧
      pieceToPT (ptToPiece ROOK BLACK) = some ROOK ∧
      pieceColor (ptToPiece ROOK BLACK) = some BLACK :=
  ptToPiece_bijection.1 ROOK BLACK (by decide) (by decide)

/-- C9: over the thirteen `Piece` values (`0..11` and the sentinel
`NO_PIECE = 12`), each decoder fails its assertion exactly on `NO_PIECE`; on
every `p` in `0..11` `pieceToPT` returns `p % 6` and `pieceColor` returns
`BLACK` when `p >= 6` and `WHITE` otherwise. -/
theorem decoders_fail_iff_NO_PIECE (p : Piece) (h : p ≤ NO_PIECE) :
    (pieceToPT p = none ↔ p = NO_PIECE) ∧ (pieceColor p = none ↔ p = NO_PIECE) ∧
    (p ≤ 11 → pieceToPT p = some (p % 6) ∧
      pieceColor p = some (if p ≥ 6 then BLACK else WHITE)) := by
  simp only [NO_PIECE, Piece] at h
  interval_cases p <;> decide

theorem decoders_fail_iff_NO_PIECE_witness :
    NO_PIECE ≤ NO_PIECE ∧
    (pieceToPT NO_PIECE = none ↔ NO_PIECE = NO_PIECE) ∧
    (pieceColor NO_PIECE = none ↔ NO_PIECE = NO_PIECE) ∧
    (NO_PIECE ≤ 11 → pieceToPT NO_PIECE = some (NO_PIECE % 6) ∧
      pieceColor NO_PIECE = some (if NO_PIECE ≥ 6 then BLACK else WHITE)) :=
  ⟨by decide, decoders_fail_iff_NO_PIECE NO_PIECE (by decide)⟩

/-! ## FEN letters -/

/-- The reference table, entry by entry. -/
theorem fenReferenceTable_eq :
    fenReferenceTable =
      [('P', WP), ('N', WN), ('B', WB), ('R', WR), ('Q', WQ), ('K', WK),
       ('p', BP), ('n', BN), ('b', BB), ('r', BR), ('q', BQ), ('k', BK)] := by
  decide

/-- The recognised letters, one by one. -/
theorem fenLetters_eq :
    fenLetters = ['P', 'N', 'B', 'R', 'Q', 'K', 'p', 'n', 'b', 'r', 'q', 'k'] := by
  decide

theorem mem_fenLetters (c : Char) :
    c ∈ fenLetters ↔
      c = 'P' ∨ c = 'N' ∨ c = 'B' ∨ c = 'R' ∨ c = 'Q' ∨ c = 'K' ∨
      c = 'p' ∨ c = 'n' ∨ c = 'b' ∨ c = 'r' ∨ c = 'q' ∨ c = 'k' := by
  rw [fenLetters_eq]
  simp only [List.mem_cons, List.mem_singleton, List.not_mem_nil, or_false]

/-- Outside the twelve letters the reference mapping gives the sentinel. -/
theorem fenReference_of_not_mem (c : Char) (h : c ∉ fenLetters) :
    fenReference c = NO_PIECE := by
  have hn : fenReferenceTable.lookup c = none := by
    rw [List.lookup_eq_none_iff]
    intro e he
    rw [bne_iff_ne]
    intro hc
    exact h (List.mem_map.2 ⟨e, he, hc.symm⟩)
  unfold fenReference
  rw [hn]
  rfl

/-- Outside the twelve letters the `switch` takes its `default` branch. -/
theorem fenCharToPiece_of_not_mem (c : Char) (h : c ∉ fenLetters) :
    fenCharToPiece c = NO_PIECE := by
  rw [mem_fenLetters] at h
  simp only [not_or] at h
  obtain ⟨h1, h2, h3, h4, h5, h6, h7, h8, h9, h10, h11, h12⟩ := h
  simp only [fenCharToPiece, if_neg h1, if_neg h2, if_neg h3, if_neg h4, if_neg h5, if_neg h6,
    if_neg h7, if_neg h8, if_neg h9, if_neg h10, if_neg h11, if_neg h12]

/-- On each of the twelve letters the `switch` returns a valid piece. -/
theorem fenCharToPiece_of_mem (c : Char) (h : c ∈ fenLetters) :
    fenCharToPiece c ∈ ALL_PIECES ∧ fenCharToPiece c ≠ NO_PIECE := by
  rw [mem_fenLetters] at h
  rcases h with h | h | h | h | h | h | h | h | h | h | h | h <;> subst h <;> decide

/-- C8: for every character `c`, `fenCharToPiece c` is the reference mapping
(uppercase letter of a piece type for the white piece, lowercase for the
black one, `NO_PIECE` for every other character); `'Q'` gives `WQ`, `'k'`
gives `BK`, and `'x'`, `'/'`, `'8'` give `NO_PIECE`; the result is `NO_PIECE`
exactly when `c` is not one of the twelve letters; on the twelve letters the
mapping is one-to-one and reaches every one of the twelve valid pieces. -/
theorem fenCharToPiece_eq_reference :
    (∀ c : Char, fenCharToPiece c = fenReference c) ∧
    fenLetters = ['P', 'N', 'B', 'R', 'Q', 'K', 'p', 'n', 'b', 'r', 'q', 'k'] ∧
    fenCharToPiece 'Q' = WQ ∧ fenCharToPiece 'k' = BK ∧
    fenCharToPiece 'x' = NO_PIECE ∧ fenCharToPiece '/' = NO_PIECE ∧
    fenCharToPiece '8' = NO_PIECE ∧
    (∀ c : Char, fenCharToPiece c = NO_PIECE ↔ c ∉ fenLetters) ∧
    (∀ c : Char, c ∈ fenLetters → fenCharToPiece c ∈ ALL_PIECES) ∧
    (∀ c d : Char, c ∈ fenLetters → d ∈ fenLetters →
      fenCharToPiece c = fenCharToPiece d → c = d) ∧
    (∀ p : Piece, p ∈ ALL_PIECES → ∃ c, c ∈ fenLetters ∧ fenCharToPiece c = p) := by
  refine ⟨?_, fenLetters_eq, by decide, by decide, by decide, by decide, by decide,
    ?_, ?_, ?_, ?_⟩
  · intro c
    by_cases h : c ∈ fenLetters
    · rw [mem_fenLetters] at h
      rcases h with h | h | h | h | h | h | h | h | h | h | h | h <;> subst h <;> decide
    · rw [fenCharToPiece_of_not_mem c h, fenReference_of_not_mem c h]
  · intro c
    constructor
    · intro h hm
      exact (fenCharToPiece_of_mem c hm).2 h
    · exact fenCharToPiece_of_not_mem c
  · intro c hc
    exact (fenCharToPiece_of_mem c hc).1
  · intro c d hc hd he
    rw [mem_fenLetters] at hc hd
    rcases hc with h | h | h | h | h | h | h | h | h | h | h | h <;> subst h <;>
      rcases hd with h | h | h | h | h | h | h | h | h | h | h | h <;> subst h <;>
      first
        | rfl
        | exact absurd he (by decide)
  · intro p hp
    have h11 := (mem_ALL_PIECES p).1 hp
    interval_cases p
    · exact ⟨'P', by decide, by decide⟩
    · exact ⟨'N', by decide, by decide⟩
    · exact ⟨'B', by decide, by decide⟩
    · exact ⟨'R', by decide, by decide⟩
    · exact ⟨'Q', by decide, by decide⟩
    · exact ⟨'K', by decide, by decide⟩
    · exact ⟨'p', by decide, by decide⟩
    · exact ⟨'n', by decide, by decide⟩
    · exact ⟨'b', by decide, by decide⟩
    · exact ⟨'r', by decide, by decide⟩
    · exact ⟨'q', by decide, by decide⟩
    · exact ⟨'k', by decide, by decide⟩

theorem fenCharToPiece_eq_reference_witness :
    ∃ c, c ∈ fenLetters ∧ fenCharToPiece c = BN :=
  fenCharToPiece_eq_reference.2.2.2.2.2.2.2.2.2.2 BN (by decide)

/-! ## File and rank masks -/

/-- C10: for every file `f`, rank index `r` in `0..7` and square `s` in
`0..63`, bit `s` of `FILE_MASKS[f]` is set exactly when `fileOf s = f` and
bit `s` of `RANK_MASKS[r]` exactly when `rankOf s = r`; each of the sixteen
masks is a 64-bit value with exactly eight bits set, all of them in its own
file (respectively rank). -/
theorem file_rank_masks_shape :
    (∀ (f : File) (s : Square), f ≤ 7 → s ≤ 63 →
      ((at64 FILE_MASKS f).testBit s = true ↔ fileOf s = f)) ∧
    (∀ (r : Rank) (s : Square), r ≤ 7 → s ≤ 63 →
      ((at64 RANK_MASKS r).testBit s = true ↔ rankOf s = r)) ∧
    (∀ f : File, f ≤ 7 →
      at64 FILE_MASKS f < 2 ^ 64 ∧ popCount (at64 FILE_MASKS f) = 8 ∧
      ∀ s ∈ squaresOf (at64 FILE_MASKS f), fileOf s = f) ∧
    (∀ r : Rank, r ≤ 7 →
      at64 RANK_MASKS r < 2 ^ 64 ∧ popCount (at64 RANK_MASKS r) = 8 ∧
      ∀ s ∈ squaresOf (at64 RANK_MASKS r), rankOf s = r) := by
  refine ⟨?_, ?_, ?_, ?_⟩
  · intro f s hf hs
    interval_cases f <;> interval_cases s <;> decide
  · intro r s hr hs
    interval_cases r <;> interval_cases s <;> decide
  · intro f hf
    interval_cases f <;> decide
  · intro r hr
    interval_cases r <;> decide

theorem file_rank_masks_shape_witness :
    ((at64 FILE_MASKS FILE_C).testBit c6 = true ↔ fileOf c6 = FILE_C) :=
  file_rank_masks_shape.1 FILE_C c6 (by decide) (by decide)

/-- C11: for every file `f` and rank index `r` in `0..7`, the intersection
`FILE_MASKS[f] & RANK_MASKS[r]` is the single bit `1 << xyToSquare(f, r)`:
exactly one bit is set, the bit of the common square. -/
theorem file_rank_mask_inter (f : File) (r : Rank) (hf : f ≤ 7) (hr : r ≤ 7) :
    at64 FILE_MASKS f &&& at64 RANK_MASKS r = 1 <<< xyToSquare f r ∧
    popCount (at64 FILE_MASKS f &&& at64 RANK_MASKS r) = 1 ∧
    squaresOf (at64 FILE_MASKS f &&& at64 RANK_MASKS r) = [xyToSquare f r] := by
  interval_cases f <;> interval_cases r <;> decide

theorem file_rank_mask_inter_witness :
    at64 FILE_MASKS FILE_E &&& at64 RANK_MASKS RANK_4 = 1 <<< xyToSquare FILE_E RANK_4 ∧
    popCount (at64 FILE_MASKS FILE_E &&& at64 RANK_MASKS RANK_4) = 1 ∧
    squaresOf (at64 FILE_MASKS FILE_E &&& at64 RANK_MASKS RANK_4) =
      [xyToSquare FILE_E RANK_4] :=
  file_rank_mask_inter FILE_E RANK_4 (by decide) (by decide)

/-! ## Edge guards -/

/-- The bits of the eight guard masks, square by square. -/
theorem guard_bits (s : Nat) (h : s ≤ 63) :
    notA.testBit s = decide (1 ≤ s % 8) ∧ notAB.testBit s = decide (2 ≤ s % 8) ∧
    notH.testBit s = decide (s % 8 ≤ 6) ∧ notGH.testBit s = decide (s % 8 ≤ 5) ∧
    not1.testBit s = decide (s < 56) ∧ not12.testBit s = decide (s < 48) ∧
    not8.testBit s = decide (8 ≤ s) ∧ not78.testBit s = decide (16 ≤ s) := by
  interval_cases s <;> decide

/-- C12: each single-lane guard (`notA`, `notH`, `not1`, `not8`) has exactly
56 of its 64 bits set, each double-lane guard (`notAB`, `notGH`, `not12`,
`not78`) exactly 48, and all eight are 64-bit values. -/
theorem guard_popCount :
    popCount notA = 56 ∧ popCount notH = 56 ∧ popCount not1 = 56 ∧ popCount not8 = 56 ∧
    popCount notAB = 48 ∧ popCount notGH = 48 ∧ popCount not12 = 48 ∧ popCount not78 = 48 ∧
    notA < 2 ^ 64 ∧ notH < 2 ^ 64 ∧ not1 < 2 ^ 64 ∧ not8 < 2 ^ 64 ∧
    notAB < 2 ^ 64 ∧ notGH < 2 ^ 64 ∧ not12 < 2 ^ 64 ∧ not78 < 2 ^ 64 := by
  decide

/-- C13: for every square `s` in `0..63`, bit `s` of a guard mask is set
exactly when `s` lies outside the lanes the mask excludes: `notA` file A,
`notAB` files A and B, `notH` file H, `notGH` files G and H, `not1` rank 1,
`not12` ranks 1 and 2, `not8` rank 8, `not78` ranks 7 and 8. -/
theorem guard_membership (s : Square) (h : s ≤ 63) :
    (notA.testBit s = true ↔ fileOf s ≠ FILE_A) ∧
    (notAB.testBit s = true ↔ fileOf s ≠ FILE_A ∧ fileOf s ≠ FILE_B) ∧
    (notH.testBit s = true ↔ fileOf s ≠ FILE_H) ∧
    (notGH.testBit s = true ↔ fileOf s ≠ FILE_G ∧ fileOf s ≠ FILE_H) ∧
    (not1.testBit s = true ↔ rankOf s ≠ RANK_1) ∧
    (not12.testBit s = true ↔ rankOf s ≠ RANK_1 ∧ rankOf s ≠ RANK_2) ∧
    (not8.testBit s = true ↔ rankOf s ≠ RANK_8) ∧
    (not78.testBit s = true ↔ rankOf s ≠ RANK_7 ∧ rankOf s ≠ RANK_8) := by
  interval_cases s <;> decide

theorem guard_membership_witness :
    g2 ≤ 63 ∧
    (notA.testBit g2 = true ↔ fileOf g2 ≠ FILE_A) ∧
    (notAB.testBit g2 = true ↔ fileOf g2 ≠ FILE_A ∧ fileOf g2 ≠ FILE_B) ∧
    (notH.testBit g2 = true ↔ fileOf g2 ≠ FILE_H) ∧
    (notGH.testBit g2 = true ↔ fileOf g2 ≠ FILE_G ∧ fileOf g2 ≠ FILE_H) ∧
    (not1.testBit g2 = true ↔ rankOf g2 ≠ RANK_1) ∧
    (not12.testBit g2 = true ↔ rankOf g2 ≠ RANK_1 ∧ rankOf g2 ≠ RANK_2) ∧
    (not8.testBit g2 = true ↔ rankOf g2 ≠ RANK_8) ∧
    (not78.testBit g2 = true ↔ rankOf g2 ≠ RANK_7 ∧ rankOf g2 ≠ RANK_8) :=
  ⟨by decide, guard_membership g2 (by decide)⟩

/-! ## Directional shifts -/

/-- A 64-bit value has no bit at or above position 64. -/
theorem testBit_of_ge_64 (x : Bitboard) (hx : x < 2 ^ 64) (i : Nat) (hi : 64 ≤ i) :
    x.testBit i = false :=
  Nat.testBit_lt_two_pow (Nat.lt_of_lt_of_le hx (Nat.pow_le_pow_right (by decide) hi))

/-- Bit `t` of `x >> n` is bit `n + t` of `x`, which lies on the board. -/
theorem shr64_bit (x : Bitboard) (n t : Nat) (hx : x < 2 ^ 64) :
    (shr64 x n).testBit t = true ↔ n + t ≤ 63 ∧ x.testBit (n + t) = true := by
  unfold shr64
  rw [Nat.testBit_shiftRight]
  constructor
  · intro h
    refine ⟨?_, h⟩
    by_contra hc
    rw [testBit_of_ge_64 x hx (n + t) (by omega)] at h
    exact Bool.false_ne_true h
  · exact fun h => h.2

/-- Bit `t` of the 64-bit `x << n` is bit `t - n` of `x`, when `n <= t`. -/
theorem shl64_bit (x : Bitboard) (n t : Nat) (ht : t ≤ 63) :
    (shl64 x n).testBit t = true ↔ n ≤ t ∧ x.testBit (t - n) = true := by
  unfold shl64
  rw [Nat.testBit_mod_two_pow, Nat.testBit_shiftLeft]
  have h64 : t < 64 := by omega
  simp only [h64, decide_True, Bool.true_and, Bool.and_eq_true, decide_eq_true_eq, ge_iff_le]

/-- Masking before a right shift. -/
theorem shr64_and_bit (x m : Bitboard) (n t : Nat) (hx : x < 2 ^ 64) :
    (shr64 (x &&& m) n).testBit t = true ↔
      n + t ≤ 63 ∧ x.testBit (n + t) = true ∧ m.testBit (n + t) = true := by
  rw [shr64_bit (x &&& m) n t (Nat.lt_of_le_of_lt Nat.and_le_left hx), Nat.testBit_and,
    Bool.and_eq_true]

/-- Masking before a left shift. -/
theorem shl64_and_bit (x m : Bitboard) (n t : Nat) (ht : t ≤ 63) :
    (shl64 (x &&& m) n).testBit t = true ↔
      n ≤ t ∧ x.testBit (t - n) = true ∧ m.testBit (t - n) = true := by
  rw [shl64_bit (x &&& m) n t ht, Nat.testBit_and, Bool.and_eq_true]

/-- C14: the documented horizontal steps never wrap around a board edge. For
every 64-bit bitboard `x` and square `t` in `0..63`, bit `t` of
`(x & notA) >> 1` is set exactly when `x` holds a square of the same rank one
file to the right of `t`, and bit `t` of the 64-bit `(x & notH) << 1` exactly
when `x` holds a square of the same rank one file to the left of `t`. -/
theorem horizontal_shift_no_wrap (x : Bitboard) (t : Square) (hx : x < 2 ^ 64) (ht : t ≤ 63) :
    ((shr64 (x &&& notA) 1).testBit t = true ↔
      ∃ s : Square, s ≤ 63 ∧ x.testBit s = true ∧ rankOf s = rankOf t ∧
        fileOf s = fileOf t + 1) ∧
    ((shl64 (x &&& notH) 1).testBit t = true ↔
      ∃ s : Square, s ≤ 63 ∧ x.testBit s = true ∧ rankOf s = rankOf t ∧
        (fileOf s : Int) = (fileOf t : Int) - 1) := by
  simp only [fileOf_eq_mod, rankOf_eq_div, Square, File, Rank] at *
  constructor
  · rw [shr64_and_bit x notA 1 t hx]
    constructor
    · rintro ⟨h63, hb, hm⟩
      rw [(guard_bits (1 + t) h63).1, decide_eq_true_eq] at hm
      exact ⟨1 + t, h63, hb, by omega, by omega⟩
    · rintro ⟨s, hs, hb, hr, hf⟩
      have he : s = 1 + t := by omega
      subst he
      refine ⟨hs, hb, ?_⟩
      rw [(guard_bits (1 + t) hs).1, decide_eq_true_eq]
      omega
  · rw [shl64_and_bit x notH 1 t ht]
    constructor
    · rintro ⟨h1, hb, hm⟩
      rw [(guard_bits (t - 1) (by omega)).2.2.1, decide_eq_true_eq] at hm
      exact ⟨t - 1, by omega, hb, by omega, by omega⟩
    · rintro ⟨s, hs, hb, hr, hf⟩
      have he : s = t - 1 := by omega
      subst he
      refine ⟨by omega, hb, ?_⟩
      rw [(guard_bits (t - 1) hs).2.2.1, decide_eq_true_eq]
      omega

theorem horizontal_shift_no_wrap_witness :
    ((shr64 ((1 <<< h8 ||| 1 <<< a7) &&& notA) 1).testBit g8 = true ↔
      ∃ s : Square, s ≤ 63 ∧ (1 <<< h8 ||| 1 <<< a7).testBit s = true ∧
        rankOf s = rankOf g8 ∧ fileOf s = fileOf g8 + 1) ∧
    ((shl64 ((1 <<< h8 ||| 1 <<< a7) &&& notH) 1).testBit g8 = true ↔
      ∃ s : Square, s ≤ 63 ∧ (1 <<< h8 ||| 1 <<< a7).testBit s = true ∧
        rankOf s = rankOf g8 ∧ (fileOf s : Int) = (fileOf g8 : Int) - 1) :=
  horizontal_shift_no_wrap (1 <<< h8 ||| 1 <<< a7) g8 (by decide) (by decide)

/-- C15: the documented vertical steps move every piece one rank and keep its
file. For every 64-bit bitboard `x` and square `t` in `0..63`, bit `t` of
`x >> 8` is set exactly when `x` holds the square of the same file whose rank
index is one more than that of `t`, and bit `t` of the 64-bit `x << 8` exactly
when `x` holds the square of the same file whose rank index is one less. -/
theorem vertical_shift_one_rank (x : Bitboard) (t : Square) (hx : x < 2 ^ 64) (ht : t ≤ 63) :
    ((shr64 x 8).testBit t = true ↔
      ∃ s : Square, s ≤ 63 ∧ x.testBit s = true ∧ fileOf s = fileOf t ∧
        rankOf s = rankOf t + 1) ∧
    ((shl64 x 8).testBit t = true ↔
      ∃ s : Square, s ≤ 63 ∧ x.testBit s = true ∧ fileOf s = fileOf t ∧
        (rankOf s : Int) = (rankOf t : Int) - 1) := by
  simp only [fileOf_eq_mod, rankOf_eq_div, Square, File, Rank] at *
  constructor
  · rw [shr64_bit x 8 t hx]
    constructor
    · rintro ⟨h63, hb⟩
      exact ⟨8 + t, h63, hb, by omega, by omega⟩
    · rintro ⟨s, hs, hb, hf, hr⟩
      have he : s = 8 + t := by omega
      subst he
      exact ⟨hs, hb⟩
  · rw [shl64_bit x 8 t ht]
    constructor
    · rintro ⟨h8, hb⟩
      exact ⟨t - 8, by omega, hb, by omega, by omega⟩
    · rintro ⟨s, hs, hb, hf, hr⟩
      have he : s = t - 8 := by omega
      subst he
      exact ⟨by omega, hb⟩

theorem vertical_shift_one_rank_witness :
    ((shr64 (1 <<< e2) 8).testBit e3 = true ↔
      ∃ s : Square, s ≤ 63 ∧ (1 <<< e2).testBit s = true ∧ fileOf s = fileOf e3 ∧
        rankOf s = rankOf e3 + 1) ∧
    ((shl64 (1 <<< e2) 8).testBit e3 = true ↔
      ∃ s : Square, s ≤ 63 ∧ (1 <<< e2).testBit s = true ∧ fileOf s = fileOf e3 ∧
        (rankOf s : Int) = (rankOf e3 : Int) - 1) :=
  vertical_shift_one_rank (1 <<< e2) e3 (by decide) (by decide)

/-- C17: the double-file guards remove exactly the wrapped results of the
two-file knight jumps. For every 64-bit bitboard `x` and square `t` in
`0..63`, bit `t` of `(x & notAB) >> 10`, of `(x & notAB) << 6`, of
`(x & notGH) >> 6` and of `(x & notGH) << 10` (left shifts inside 64 bits) is
set exactly when `x` holds the square two files right and one rank index up,
two files right and one rank index down, two files left and one rank index
up, two files left and one rank index down of `t`, respectively. -/
theorem knight_file_guards (x : Bitboard) (t : Square) (hx : x < 2 ^ 64) (ht : t ≤ 63) :
    ((shr64 (x &&& notAB) 10).testBit t = true ↔
      ∃ s : Square, s ≤ 63 ∧ x.testBit s = true ∧ fileOf s = fileOf t + 2 ∧
        rankOf s = rankOf t + 1) ∧
    ((shl64 (x &&& notAB) 6).testBit t = true ↔
      ∃ s : Square, s ≤ 63 ∧ x.testBit s = true ∧ fileOf s = fileOf t + 2 ∧
        (rankOf s : Int) = (rankOf t : Int) - 1) ∧
    ((shr64 (x &&& notGH) 6).testBit t = true ↔
      ∃ s : Square, s ≤ 63 ∧ x.testBit s = true ∧ (fileOf s : Int) = (fileOf t : Int) - 2 ∧
        rankOf s = rankOf t + 1) ∧
    ((shl64 (x &&& notGH) 10).testBit t = true ↔
      ∃ s : Square, s ≤ 63 ∧ x.testBit s = true ∧ (fileOf s : Int) = (fileOf t : Int) - 2 ∧
        (rankOf s : Int) = (rankOf t : Int) - 1) := by
  simp only [fileOf_eq_mod, rankOf_eq_div, Square, File, Rank] at *
  refine ⟨?_, ?_, ?_, ?_⟩
  · rw [shr64_and_bit x notAB 10 t hx]
    constructor
    · rintro ⟨h63, hb, hm⟩
      rw [(guard_bits (10 + t) h63).2.1, decide_eq_true_eq] at hm
      exact ⟨10 + t, h63, hb, by omega, by omega⟩
    · rintro ⟨s, hs, hb, hf, hr⟩
      have he : s = 10 + t := by omega
      subst he
      refine ⟨hs, hb, ?_⟩
      rw [(guard_bits (10 + t) hs).2.1, decide_eq_true_eq]
      omega
  · rw [shl64_and_bit x notAB 6 t ht]
    constructor
    · rintro ⟨h6, hb, hm⟩
      rw [(guard_bits (t - 6) (by omega)).2.1, decide_eq_true_eq] at hm
      exact ⟨t - 6, by omega, hb, by omega, by omega⟩
    · rintro ⟨s, hs, hb, hf, hr⟩
      have he : s = t - 6 := by omega
      subst he
      refine ⟨by omega, hb, ?_⟩
      rw [(guard_bits (t - 6) hs).2.1, decide_eq_true_eq]
      omega
  · rw [shr64_and_bit x notGH 6 t hx]
    constructor
    · rintro ⟨h63, hb, hm⟩
      rw [(guard_bits (6 + t) h63).2.2.2.1, decide_eq_true_eq] at hm
      exact ⟨6 + t, h63, hb, by omega, by omega⟩
    · rintro ⟨s, hs, hb, hf, hr⟩
      have he : s = 6 + t := by omega
      subst he
      refine ⟨hs, hb, ?_⟩
      rw [(guard_bits (6 + t) hs).2.2.2.1, decide_eq_true_eq]
      omega
  · rw [shl64_and_bit x notGH 10 t ht]
    constructor
    · rintro ⟨h10, hb, hm⟩
      rw [(guard_bits (t - 10) (by omega)).2.2.2.1, decide_eq_true_eq] at hm
      exact ⟨t - 10, by omega, hb, by omega, by omega⟩
    · rintro ⟨s, hs, hb, hf, hr⟩
      have he : s = t - 10 := by omega
      subst he
      refine ⟨by omega, hb, ?_⟩
      rw [(guard_bits (t - 10) hs).2.2.2.1, decide_eq_true_eq]
      omega

theorem knight_file_guards_witness :
    ((shr64 ((1 <<< b1) &&& notAB) 10).testBit h3 = true ↔
      ∃ s : Square, s ≤ 63 ∧ (1 <<< b1).testBit s = true ∧ fileOf s = fileOf h3 + 2 ∧
        rankOf s = rankOf h3 + 1) ∧
    ((shl64 ((1 <<< b1) &&& notAB) 6).testBit h3 = true ↔
      ∃ s : Square, s ≤ 63 ∧ (1 <<< b1).testBit s = true ∧ fileOf s = fileOf h3 + 2 ∧
        (rankOf s : Int) = (rankOf h3 : Int) - 1) ∧
    ((shr64 ((1 <<< b1) &&& notGH) 6).testBit h3 = true ↔
      ∃ s : Square, s ≤ 63 ∧ (1 <<< b1).testBit s = true ∧
        (fileOf s : Int) = (fileOf h3 : Int) - 2 ∧ rankOf s = rankOf h3 + 1) ∧
    ((shl64 ((1 <<< b1) &&& notGH) 10).testBit h3 = true ↔
      ∃ s : Square, s ≤ 63 ∧ (1 <<< b1).testBit s = true ∧
        (fileOf s : Int) = (fileOf h3 : Int) - 2 ∧
        (rankOf s : Int) = (rankOf h3 : Int) - 1) :=
  knight_file_guards (1 <<< b1) h3 (by decide) (by decide)

/-- A 64-bit left shift is a 64-bit value. -/
theorem shl64_lt (x : Bitboard) (n : Nat) : shl64 x n < 2 ^ 64 :=
  Nat.mod_lt _ (by decide)

/-- A guard that keeps every bit from position `n` up does not change `x >> n`. -/
theorem shr64_and_of_keeps (x m : Bitboard) (n : Nat) (hx : x < 2 ^ 64)
    (hm : ∀ i, n ≤ i → i ≤ 63 → m.testBit i = true) :
    shr64 (x &&& m) n = shr64 x n := by
  apply Nat.eq_of_testBit_eq
  intro i
  rw [Bool.eq_iff_iff, shr64_and_bit x m n i hx, shr64_bit x n i hx]
  constructor
  · exact fun h => ⟨h.1, h.2.1⟩
  · exact fun h => ⟨h.1, h.2, hm (n + i) (by omega) h.1⟩

/-- A guard that keeps every bit below position `64 - n` does not change the
64-bit `x << n`. -/
theorem shl64_and_of_keeps (x m : Bitboard) (n : Nat)
    (hm : ∀ i, i + n ≤ 63 → m.testBit i = true) :
    shl64 (x &&& m) n = shl64 x n := by
  apply Nat.eq_of_testBit_eq
  intro i
  by_cases hi : i ≤ 63
  · rw [Bool.eq_iff_iff, shl64_and_bit x m n i hi, shl64_bit x n i hi]
    constructor
    · exact fun h => ⟨h.1, h.2.1⟩
    · exact fun h => ⟨h.1, h.2, hm (i - n) (by omega)⟩
  · rw [testBit_of_ge_64 _ (shl64_lt _ n) i (by omega),
      testBit_of_ge_64 _ (shl64_lt _ n) i (by omega)]

/-- C18: the rank guards change nothing in the vertical shifts of a 64-bit
board, since a shift drops the bits it pushes past either end: for every
64-bit `x`, `(x & not8) >> 8 = x >> 8`, `(x & not78) >> 16 = x >> 16`,
`(x & not1) << 8 = x << 8` and `(x & not12) << 16 = x << 16`, the left shifts
taken inside 64 bits. -/
theorem rank_guards_redundant (x : Bitboard) (hx : x < 2 ^ 64) :
    shr64 (x &&& not8) 8 = shr64 x 8 ∧ shr64 (x &&& not78) 16 = shr64 x 16 ∧
    shl64 (x &&& not1) 8 = shl64 x 8 ∧ shl64 (x &&& not12) 16 = shl64 x 16 := by
  refine ⟨?_, ?_, ?_, ?_⟩
  · apply shr64_and_of_keeps x not8 8 hx
    intro i h8 h63
    rw [(guard_bits i h63).2.2.2.2.2.2.1, decide_eq_true_eq]
    exact h8
  · apply shr64_and_of_keeps x not78 16 hx
    intro i h16 h63
    rw [(guard_bits i h63).2.2.2.2.2.2.2, decide_eq_true_eq]
    exact h16
  · apply shl64_and_of_keeps x not1 8
    intro i h
    rw [(guard_bits i (by omega)).2.2.2.2.1, decide_eq_true_eq]
    omega
  · apply shl64_and_of_keeps x not12 16
    intro i h
    rw [(guard_bits i (by omega)).2.2.2.2.2.1, decide_eq_true_eq]
    omega

theorem rank_guards_redundant_witness :
    shr64 (ALL_SQUARES_BB &&& not8) 8 = shr64 ALL_SQUARES_BB 8 ∧
    shr64 (ALL_SQUARES_BB &&& not78) 16 = shr64 ALL_SQUARES_BB 16 ∧
    shl64 (ALL_SQUARES_BB &&& not1) 8 = shl64 ALL_SQUARES_BB 8 ∧
    shl64 (ALL_SQUARES_BB &&& not12) 16 = shl64 ALL_SQUARES_BB 16 :=
  rank_guards_redundant ALL_SQUARES_BB (by decide)

/-! ## Sentinels and score constants -/

/-- C16: the score bounds are ordered and coincide as documented:
`MATE_BOUND = 99998` is strictly below `MATE_SCORE = 99999`, `infinity` equals
`MATE_SCORE`, and both satisfy the comparison `|score| >= MATE_BOUND`. -/
theorem score_bounds_order :
    MATE_BOUND < MATE_SCORE ∧ MATE_BOUND = 99998 ∧ MATE_SCORE = 99999 ∧
    infinity = MATE_SCORE ∧ MATE_BOUND ≤ |MATE_SCORE| ∧ MATE_BOUND ≤ |infinity| := by
  refine ⟨by decide, rfl, rfl, rfl, ?_, ?_⟩
  · rw [abs_of_nonneg (by decide)]
    decide
  · rw [abs_of_nonneg (by decide)]
    decide

/-- C19: over the seven `PieceType` values (`PAWN..KING` and `NO_PT = 6`) and
both colours, `ptToPiece pt c` is `NO_PIECE` exactly when `pt = NO_PT` and
`c = BLACK`; `ptToPiece NO_PT WHITE` is not the sentinel but the valid piece
`BP`, of value 6. -/
theorem ptToPiece_sentinel (pt : PieceType) (c : Color) (hpt : pt ≤ NO_PT) (hc : c ∈ COLORS) :
    (ptToPiece pt c = NO_PIECE ↔ pt = NO_PT ∧ c = BLACK) ∧
    ptToPiece NO_PT WHITE ≠ NO_PIECE ∧ ptToPiece NO_PT WHITE = BP ∧ BP = 6 ∧
    BP ∈ ALL_PIECES := by
  have hc1 : c ≤ 1 := by
    simp only [COLORS, WHITE, BLACK, List.mem_cons, List.mem_singleton, List.not_mem_nil,
      or_false, Color] at *
    omega
  simp only [NO_PT, PieceType] at hpt
  interval_cases pt <;> interval_cases c <;> decide

theorem ptToPiece_sentinel_witness :
    (ptToPiece NO_PT BLACK = NO_PIECE ↔ NO_PT = NO_PT ∧ BLACK = BLACK) ∧
    ptToPiece NO_PT WHITE ≠ NO_PIECE ∧ ptToPiece NO_PT WHITE = BP ∧ BP = 6 ∧
    BP ∈ ALL_PIECES :=
  ptToPiece_sentinel NO_PT BLACK (by decide) (by decide)

/-- Every table entry of a piece type other than the king is between 0 and
the queen's 900. -/
theorem pieceValue_range (pt : PieceType)
    (h : pt ∈ [PAWN, KNIGHT, BISHOP, ROOK, QUEEN, NO_PT]) :
    0 ≤ pieceValue pt ∧ pieceValue pt ≤ 900 := by
  simp only [List.mem_cons, List.mem_singleton, List.not_mem_nil, or_false] at h
  rcases h with h | h | h | h | h | h <;> subst h <;> decide

/-- The material total of king-free piece types is at most 900 per piece. -/
theorem material_sum_range (l : List PieceType)
    (hl : ∀ pt ∈ l, pt ∈ [PAWN, KNIGHT, BISHOP, ROOK, QUEEN, NO_PT]) :
    0 ≤ (l.map pieceValue).sum ∧ (l.map pieceValue).sum ≤ 900 * (l.length : Int) := by
  induction l with
  | nil => simp
  | cons pt rest ih =>
    have hr := pieceValue_range pt (hl pt (List.mem_cons_self pt rest))
    have hi := ih (fun q hq => hl q (List.mem_cons_of_mem pt hq))
    simp only [List.map_cons, List.sum_cons, List.length_cons, Nat.cast_add, Nat.cast_one,
      Eval] at *
    omega

/-- C20: for every list of at most 15 piece types drawn from `PAWN`,
`KNIGHT`, `BISHOP`, `ROOK`, `QUEEN` and `NO_PT`, the sum of their
`pieceTypeValues` entries is at least 0 and strictly below `MATE_BOUND`,
while the entry of `KING` is `infinity = MATE_SCORE`, which is at or above
`MATE_BOUND`. -/
theorem material_below_mate_bound (l : List PieceType) (hlen : l.length ≤ 15)
    (hl : ∀ pt ∈ l, pt ∈ [PAWN, KNIGHT, BISHOP, ROOK, QUEEN, NO_PT]) :
    0 ≤ (l.map pieceValue).sum ∧ (l.map pieceValue).sum < MATE_BOUND ∧
    pieceValue KING = infinity ∧ infinity = MATE_SCORE ∧ MATE_BOUND ≤ pieceValue KING := by
  have h := material_sum_range l hl
  refine ⟨h.1, ?_, rfl, rfl, by decide⟩
  simp only [MATE_BOUND, Eval] at *
  omega

theorem material_below_mate_bound_witness :
    0 ≤ ([QUEEN, ROOK, ROOK, PAWN].map pieceValue).sum ∧
    ([QUEEN, ROOK, ROOK, PAWN].map pieceValue).sum < MATE_BOUND ∧
    pieceValue KING = infinity ∧ infinity = MATE_SCORE ∧ MATE_BOUND ≤ pieceValue KING :=
  material_below_mate_bound [QUEEN, ROOK, ROOK, PAWN] (by decide) (by decide)

end KataFish
